import Mathlib

/-!
Verification of the declarative nested-image lifecycle manager and the
slug-keyed SEO metadata synchronizer of the its_backend repository.

The JavaScript sources are shallowly embedded:

* JSON-like documents (Mongoose records converted by toObject, request
  bodies) become the inductive type JSValue.  A JavaScript value that may
  be undefined is an Option JSValue, with none playing the role of
  undefined.
* The embedding ignores the JavaScript prototype chain: property lookup on
  an object sees own properties only (the documents handled by the code
  are plain JSON data, which has own properties only), and the static
  imageConfig table is modelled as an association list of its own keys.
* Strict equality (===) on strings, numbers, booleans, null and undefined
  is by value; between two objects or arrays it is reference equality.
  The differ only ever compares a value reached inside the old document
  with a value reached inside the new document, and those are distinct
  objects, so object/array comparison is modelled as false.
* Asynchronous functions are modelled as pure functions; the side effect
  of interest (which image references are handed to deleteImage, which
  remote destroy calls are attempted, how the metadata store changes) is
  returned as a value.  A JavaScript exception crossing a function
  boundary is an Except.error.
-/

namespace ItsBackend

/-- A JSON-like JavaScript value, as stored in the documents this backend
manipulates.  vNum only arises in the model through the length property of
arrays. -/
inductive JSValue where
  | vNull : JSValue
  | vBool : Bool → JSValue
  | vNum : Int → JSValue
  | vStr : String → JSValue
  | vArr : List JSValue → JSValue
  | vObj : List (String × JSValue) → JSValue
deriving Inhabited

namespace JSValue

/-- JavaScript truthiness of a value. -/
def truthy : JSValue → Bool
  | vNull => false
  | vBool b => b
  | vNum n => !(n == 0)
  | vStr s => !(s == "")
  | vArr _ => true
  | vObj _ => true

/-- typeof v === "object" (true for objects, arrays and null). -/
def isObjectType : JSValue → Bool
  | vNull => true
  | vArr _ => true
  | vObj _ => true
  | _ => false

/-- typeof v === "string". -/
def isStr : JSValue → Bool
  | vStr _ => true
  | _ => false

end JSValue

open JSValue

/-- Truthiness of a possibly-undefined value (undefined is falsy). -/
def truthyOpt : Option JSValue → Bool
  | none => false
  | some v => v.truthy

/-- Strict equality (===) between two defined values.  Strings, numbers,
booleans and null compare by value; two objects or arrays compare by
reference, and the differ only ever compares an object from the old
document with an object from the new document, which are never the same
reference, so those comparisons are modelled as false. -/
def jsStrictEq : JSValue → JSValue → Bool
  | vNull, vNull => true
  | vBool a, vBool b => a == b
  | vNum a, vNum b => a == b
  | vStr a, vStr b => a == b
  | _, _ => false

/-- Strict equality (===) where either side may be undefined. -/
def strictEqOpt : Option JSValue → Option JSValue → Bool
  | none, none => true
  | some a, some b => jsStrictEq a b
  | _, _ => false

/-- Splits a list of characters at every occurrence of a single-character
separator, keeping empty fragments, exactly like the JavaScript
String.prototype.split with a one-character separator. -/
def splitChar (sep : Char) : List Char → List (List Char)
  | [] => [[]]
  | c :: rest =>
    if c = sep then [] :: splitChar sep rest
    else
      match splitChar sep rest with
      | s :: ss => (c :: s) :: ss
      | [] => [[c]]

/-- Splits a list of characters at every occurrence of the two-character
separator used by the path language, scanning left to right exactly like
the JavaScript expression path.split said separator written as an opening
bracket immediately followed by a closing bracket. -/
def splitBrackets : List Char → List (List Char)
  | [] => [[]]
  | [c] => [[c]]
  | c₁ :: c₂ :: rest =>
    if c₁ = '[' ∧ c₂ = ']' then [] :: splitBrackets rest
    else
      match splitBrackets (c₂ :: rest) with
      | s :: ss => (c₁ :: s) :: ss
      | [] => [[c₁]]

theorem splitChar_ne_nil (sep : Char) (cs : List Char) : splitChar sep cs ≠ [] := by
  cases cs with
  | nil => simp [splitChar]
  | cons c rest =>
    simp only [splitChar]
    split
    · exact List.cons_ne_nil _ _
    · split
      · exact List.cons_ne_nil _ _
      · exact List.cons_ne_nil _ _

theorem splitBrackets_ne_nil (cs : List Char) : splitBrackets cs ≠ [] := by
  match cs with
  | [] => simp [splitBrackets]
  | [c] => simp [splitBrackets]
  | c₁ :: c₂ :: rest =>
    simp only [splitBrackets]
    split
    · exact List.cons_ne_nil _ _
    · split
      · exact List.cons_ne_nil _ _
      · exact List.cons_ne_nil _ _

/-- The first fragment of a bracket split is no longer than the input. -/
theorem splitBrackets_head_len : ∀ (cs : List Char) (s : List Char) (ss : List (List Char)),
    splitBrackets cs = s :: ss → s.length ≤ cs.length
  | [], s, ss, h => by
    simp only [splitBrackets] at h
    cases h
    simp
  | [c], s, ss, h => by
    simp only [splitBrackets] at h
    cases h
    simp
  | c₁ :: c₂ :: rest, s, ss, h => by
    simp only [splitBrackets] at h
    by_cases hc : c₁ = '[' ∧ c₂ = ']'
    · rw [if_pos hc] at h
      cases h
      simp
    · rw [if_neg hc] at h
      rcases hsp : splitBrackets (c₂ :: rest) with _ | ⟨s₂, ss₂⟩
      · exact absurd hsp (splitBrackets_ne_nil _)
      · rw [hsp] at h
        injection h with h1 h2
        subst h1
        have ih := splitBrackets_head_len (c₂ :: rest) s₂ ss₂ hsp
        simp only [List.length_cons] at ih ⊢
        omega

/-- The second fragment of a bracket split is at least three characters
shorter than the input (it is preceded by a fragment and the two-character
separator). -/
theorem splitBrackets_second_len : ∀ (cs : List Char) (p₀ p₁ : List Char)
    (ps : List (List Char)), splitBrackets cs = p₀ :: p₁ :: ps →
    p₁.length + 2 ≤ cs.length
  | [], p₀, p₁, ps, h => by
    simp only [splitBrackets] at h
    cases h
  | [c], p₀, p₁, ps, h => by
    simp only [splitBrackets] at h
    cases h
  | c₁ :: c₂ :: rest, p₀, p₁, ps, h => by
    simp only [splitBrackets] at h
    by_cases hc : c₁ = '[' ∧ c₂ = ']'
    · rw [if_pos hc] at h
      injection h with h1 h2
      have ih := splitBrackets_head_len rest p₁ ps h2
      simp only [List.length_cons]
      omega
    · rw [if_neg hc] at h
      rcases hsp : splitBrackets (c₂ :: rest) with _ | ⟨s₂, ss₂⟩
      · exact absurd hsp (splitBrackets_ne_nil _)
      · rw [hsp] at h
        injection h with h1 h2
        rw [h2] at hsp
        have ih := splitBrackets_second_len (c₂ :: rest) s₂ p₁ ps hsp
        simp only [List.length_cons] at ih ⊢
        omega

/-! ## Path resolution (getNestedValue, shared by middlewares/cleanupImages.js
and middlewares/cleanupOldImages.js, which define the identical function) -/

/-- Own-property membership and lookup, modelling the JavaScript test
key in v followed by the access v[key] for an object-typed v.  On an
array, the numeric own properties are the canonical decimal indices below
the length, plus the length property itself.  Prototype-chain properties
are outside the model. -/
def propLookup (v : JSValue) (key : String) : Option JSValue :=
  match v with
  | .vObj fields => fields.lookup key
  | .vArr xs =>
    if key = "length" then some (.vNum xs.length)
    else
      match key.toNat? with
      | some n => if toString n = key then xs[n]? else none
      | none => none
  | _ => none

/-- One step of the reduce inside getNestedValue: descend through key when
the accumulator is truthy, object-typed and holds the key, otherwise
undefined. -/
def nestedStep (acc : Option JSValue) (key : List Char) : Option JSValue :=
  match acc with
  | some v => if v.truthy && v.isObjectType then propLookup v (String.mk key) else none
  | none => none

/-- middlewares/cleanupOldImages.js lines 8 to 17 and
middlewares/cleanupImages.js lines 80 to 89: walk a dot-separated path
through nested objects, dropping out (returning undefined) as soon as the
current value is falsy, not object-typed, or lacks the key. -/
def getNestedValue (obj : Option JSValue) (path : String) : Option JSValue :=
  if !truthyOpt obj || path == "" then none
  else (splitChar '.' path.data).foldl nestedStep obj

/-- The JavaScript optional-chained index access v?.[i]. -/
def jsIdx : Option JSValue → Nat → Option JSValue
  | none, _ => none
  | some .vNull, _ => none
  | some (.vArr xs), i => xs[i]?
  | some (.vStr s), i => (s.data[i]?).map (fun c => .vStr (String.mk [c]))
  | some (.vObj fields), i => fields.lookup (toString i)
  | some (.vBool _), _ => none
  | some (.vNum _), _ => none

/-! ## Differential cleanup (middlewares/cleanupOldImages.js) -/

/-- The positional comparison loop that appears verbatim both in
compareArrayPath (lines 49 to 56, over a direct array of images) and in
compareSimplePath (lines 81 to 88, over an array leaf): index i of the old
array is reported when it is truthy and differs from the new value at the
same index. -/
def imageElemLoop (oldXs : List JSValue) (newValue : Option JSValue) (i : Nat) : List JSValue :=
  match oldXs with
  | [] => []
  | oldImage :: rest =>
    (if oldImage.truthy && !(strictEqOpt (some oldImage) (jsIdx newValue i))
     then [oldImage] else [])
    ++ imageElemLoop rest newValue (i + 1)

/-- middlewares/cleanupOldImages.js lines 73 to 90 (compareSimplePath):
the list of values handed to deleteImage for a path without brackets. -/
def compareSimplePath (oldObj newObj : Option JSValue) (path : String) : List JSValue :=
  let oldValue := getNestedValue oldObj path
  let newValue := getNestedValue newObj path
  match oldValue with
  | some (.vStr s) =>
    if strictEqOpt (some (.vStr s)) newValue then [] else [.vStr s]
  | some (.vArr xs) => imageElemLoop xs newValue 0
  | _ => []

/-- parts[0], adjusted by dropping a trailing dot:
the JavaScript expression parts[0].endsWith(... dot ...) ? parts[0].slice(0, -1) : parts[0]. -/
def arrayPathOf (cs : List Char) : String :=
  let part0 := (splitBrackets cs).headD []
  String.mk (if part0.getLast? = some '.' then part0.dropLast else part0)

/-- parts[1] ? parts[1].slice(1) : the empty string.  An absent or empty
parts[1] yields the empty string either way, so both collapse to dropping
the first character of the second fragment. -/
def remainingPathOf (cs : List Char) : String :=
  String.mk (((splitBrackets cs).getD 1 []).drop 1)

/-- When the remaining path is nonempty, it is at least three characters
shorter than the whole path (the array prefix, the bracket pair and the
leading dot are gone). -/
theorem remainingPathOf_len (cs : List Char) :
    remainingPathOf cs = "" ∨ (remainingPathOf cs).length + 3 ≤ cs.length := by
  unfold remainingPathOf
  rcases hsp : splitBrackets cs with _ | ⟨p₀, tail⟩
  · exact absurd hsp (splitBrackets_ne_nil _)
  · rcases tail with _ | ⟨p₁, ps⟩
    · left
      rfl
    · rcases p₁ with _ | ⟨c, p₁rest⟩
      · left
        rfl
      · right
        have := splitBrackets_second_len cs p₀ (c :: p₁rest) ps hsp
        simp only [List.getD_cons_succ, List.getD_cons_zero, List.drop_succ_cons,
          List.drop_zero, String.length, List.length_cons] at this ⊢
        omega

mutual

/-- middlewares/cleanupOldImages.js lines 22 to 32 (compareAndDeleteByPath):
returns immediately on a falsy old document, then dispatches on whether the
path contains a bracket pair.  The containment test path.includes is
modelled by the split producing at least two fragments, which is
equivalent for this separator. -/
def compareAndDeleteByPath (oldObj newObj : Option JSValue) (path : String) : List JSValue :=
  if truthyOpt oldObj = false then []
  else if 2 ≤ (splitBrackets path.data).length then
    compareArrayPath oldObj newObj path
  else
    compareSimplePath oldObj newObj path
termination_by (path.length, 2, 0)

/-- middlewares/cleanupOldImages.js lines 37 to 68 (compareArrayPath). -/
def compareArrayPath (oldObj newObj : Option JSValue) (path : String) : List JSValue :=
  let arrayPath := arrayPathOf path.data
  let remainingPath := remainingPathOf path.data
  let oldArray := getNestedValue oldObj arrayPath
  let newArray := getNestedValue newObj arrayPath
  match oldArray with
  | some (.vArr oldXs) =>
    if hrem : remainingPath = "" then imageElemLoop oldXs newArray 0
    else nestedItemsLoop oldXs newArray remainingPath 0
  | _ => []
termination_by (path.length, 1, 0)
decreasing_by
  have h := remainingPathOf_len path.data
  rcases h with h0 | h3
  · exact absurd h0 hrem
  · exact Prod.Lex.left _ _ (by
      have hlen : path.length = path.data.length := rfl
      omega)

/-- The nested-path loop of compareArrayPath (lines 59 to 66): recurse the
remaining path on each object-typed truthy old element, paired with the new
element at the same index. -/
def nestedItemsLoop (oldXs : List JSValue) (newArray : Option JSValue)
    (remainingPath : String) (i : Nat) : List JSValue :=
  match oldXs with
  | [] => []
  | oldItem :: rest =>
    (if oldItem.truthy && oldItem.isObjectType
     then compareAndDeleteByPath (some oldItem) (jsIdx newArray i) remainingPath
     else [])
    ++ nestedItemsLoop rest newArray remainingPath (i + 1)
termination_by (remainingPath.length + 1, 0, oldXs.length)

end

/-! ## Full cleanup (middlewares/cleanupImages.js) -/

/-- middlewares/cleanupImages.js lines 63 to 75 (handleSimplePath): a
string leaf is deleted; every string element of an array leaf is deleted. -/
def handleSimplePath (obj : Option JSValue) (path : String) : List JSValue :=
  match getNestedValue obj path with
  | some (.vStr s) => [.vStr s]
  | some (.vArr xs) => xs.filterMap (fun item => if item.isStr then some item else none)
  | _ => []

mutual

/-- middlewares/cleanupImages.js lines 22 to 32 (deleteImagesByPath):
returns immediately on a falsy document or empty path, then dispatches on
whether the path contains a bracket pair. -/
def deleteImagesByPath (obj : Option JSValue) (path : String) : List JSValue :=
  if !truthyOpt obj || path == "" then []
  else if 2 ≤ (splitBrackets path.data).length then
    handleArrayPath obj path
  else
    handleSimplePath obj path
termination_by (path.length, 2, 0)

/-- middlewares/cleanupImages.js lines 37 to 58 (handleArrayPath).  In the
source the test on remainingPath sits inside the element loop; it does not
depend on the element, so it is hoisted out of the loop here. -/
def handleArrayPath (obj : Option JSValue) (path : String) : List JSValue :=
  let arrayPath := arrayPathOf path.data
  let remainingPath := remainingPathOf path.data
  match getNestedValue obj arrayPath with
  | some (.vArr xs) =>
    if hrem : remainingPath = "" then
      xs.filterMap (fun item => if item.isStr then some item else none)
    else
      fullItemsLoop xs remainingPath
  | _ => []
termination_by (path.length, 1, 0)
decreasing_by
  have h := remainingPathOf_len path.data
  rcases h with h0 | h3
  · exact absurd h0 hrem
  · exact Prod.Lex.left _ _ (by
      have hlen : path.length = path.data.length := rfl
      omega)

/-- The element loop of handleArrayPath in its nested-path branch: recurse
the remaining path on every element. -/
def fullItemsLoop (items : List JSValue) (remainingPath : String) : List JSValue :=
  match items with
  | [] => []
  | item :: rest =>
    deleteImagesByPath (some item) remainingPath ++ fullItemsLoop rest remainingPath
termination_by (remainingPath.length + 1, 0, items.length)

end

/-! ## Path descriptor registry (config/imageConfig.js) -/

/-- config/imageConfig.js: the static table from record-type name to the
image paths registered for it. -/
def imageConfig : List (String × List String) :=
  [ ("Testimonial", ["image"])
  , ("ExpertiseIndustry", ["image"])
  , ("EngagementModel", ["modelImage"])
  , ("SeoManager", ["cover_image"])
  , ("CreativeWork", ["image"])
  , ("ServiceTechnologyList", ["image"])
  , ("OurServicesMain",
      [ "heroSections.image"
      , "heroSections.points[].image"
      , "technologyDetails.image"
      , "technologyDetails.technologyDetail[].image"
      , "technologyDetails.developmentDetail[].image" ])
  , ("Service",
      [ "contentBlocks[].image"
      , "WhyWorkWithThis.image"
      , "whyCompanyPerfersThis.content[].image" ])
  , ("HomeChooseIts", ["image"])
  , ("HirePageData",
      [ "successSpeacks.image"
      , "hireDadiated.image"
      , "unloackPower.image" ])
  , ("OpenningPosition", ["image"])
  , ("CareerContent",
      [ "heroSection.image"
      , "careerAtIts.image"
      , "whyJoinIts.points[].image" ])
  , ("Blog", ["image", "cover_image"])
  , ("AboutUs",
      [ "heroSection.points[].image"
      , "whoWeAre.image"
      , "goals.missionImage"
      , "goals.visionImage"
      , "goals.valuesImage" ])
  , ("NavbarGroupTabImageManage", ["image"])
  , ("User", ["profile_picture"])
  , ("HireMainPageData",
      [ "developmentTeamSection.image"
      , "dedicatedDeveloperSection.services[].serviceItemBox[].image"
      , "whyHireDeveloperforYourProject.detailBox[].image"
      , "whyChooseItsForDedicatedResources.detailBox[].image" ])
  , ("PortfolioContent",
      [ "heroSection.image"
      , "heroSection.points[].image" ])
  , ("TrainingMainPageData",
      [ "heroSection.image"
      , "aboutusSection.image"
      , "itsInstituteFacilitiesSection.points[].image"
      , "rightCoursePickSection.cardBox[].image"
      , "rightCoursePickSection.detailbox[].image" ])
  , ("HomePageData",
      [ "heroSecton.image"
      , "heroSecton.technologySection[].image"
      , "reasonsToChoose.deatailBox[].image"
      , "aboutOurCompany.deatailBox[].image"
      , "aboutOurCompany.image"
      , "aboutOurCompany.buttonContent.image"
      , "overseasWebAgencies.image" ]) ]

/-- The property names every plain object literal inherits from
Object.prototype in a standard JavaScript engine.  Reading one of them on
an object literal yields a truthy value that is not iterable (a function,
or the prototype object itself for the dunder-proto accessor); none of
them equals service, hire or independent. -/
def objectPrototypeKeys : List String :=
  [ "constructor", "hasOwnProperty", "isPrototypeOf", "propertyIsEnumerable"
  , "toLocaleString", "toString", "valueOf", "__defineGetter__"
  , "__defineSetter__", "__lookupGetter__", "__lookupSetter__", "__proto__" ]

/-- Result of the property read imageConfig of modelName followed by the
default-to-empty-list: the registered list for an own key, the empty list
when the property is absent (undefined is falsy, so the default applies),
or a truthy non-iterable value inherited from Object.prototype, on which
the subsequent for-of loop over the paths throws a TypeError. -/
inductive ConfigPaths where
  | pathList : List String → ConfigPaths
  | protoValue : ConfigPaths
deriving Repr, DecidableEq

def configPaths (modelName : String) : ConfigPaths :=
  match imageConfig.lookup modelName with
  | some ps => .pathList ps
  | none =>
    if objectPrototypeKeys.contains modelName then .protoValue
    else .pathList []

/-- middlewares/cleanupImages.js lines 8 to 17 (deleteImagesByConfig): the
values handed to deleteImage when every registered path of the record type
is fully resolved, or the TypeError the for-of loop throws when the
config lookup produced a non-iterable inherited value. -/
def deleteImagesByConfig (record : Option JSValue) (modelName : String) :
    Except String (List JSValue) :=
  if truthyOpt record = false then .ok []
  else
    match configPaths modelName with
    | .pathList ps => .ok (ps.flatMap (fun p => deleteImagesByPath record p))
    | .protoValue => .error "TypeError: paths is not iterable"

/-- The per-path loop of the cleanupOldImages middleware
(middlewares/cleanupOldImages.js lines 103 to 113): the values handed to
deleteImage during differential cleanup of an update, or the TypeError
thrown by the for-of loop on a non-iterable inherited config value (the
middleware catches it and answers with a 500 response). -/
def cleanupOldImages (oldData newData : Option JSValue) (modelName : String) :
    Except String (List JSValue) :=
  match configPaths modelName with
  | .pathList ps => .ok (ps.flatMap (fun p => compareAndDeleteByPath oldData newData p))
  | .protoValue => .error "TypeError: paths is not iterable"

/-! ## Remote asset deletion gateway (services/imageService.js) -/

/-- Outcome of one call to the remote destroy endpoint, as seen by
deleteImage: the result field is ok, not found, or something else, or the
call threw. -/
inductive DestroyOutcome where
  | ok : DestroyOutcome
  | notFound : DestroyOutcome
  | failed : String → DestroyOutcome
  | raised : String → DestroyOutcome
deriving Repr, DecidableEq

/-- services/imageService.js lines 13 to 23 (extractPublicId): the last
slash-separated fragment of the URL, truncated at its first dot.  A falsy
URL yields null; calling split on a non-string value throws inside the
surrounding try, so the catch also yields null. -/
def extractPublicId (url : JSValue) : Option String :=
  if url.truthy = false then none
  else
    match url with
    | .vStr s =>
      let parts := splitChar '/' s.data
      let publicIdWithExt := parts.getLastD []
      some (String.mk ((splitChar '.' publicIdWithExt).headD []))
    | _ => none

/-- services/imageService.js lines 28 to 47 (deleteImage):
returns the public id whose remote destruction was attempted, or none when
the call was skipped (falsy URL, underivable id, or empty id).  Every
destroy outcome, including a thrown error, is caught and logged, so the
function never propagates an exception: the Except.error constructor is
reserved for an exception crossing the function boundary and is never
produced. -/
def deleteImage (destroy : String → DestroyOutcome) (imageUrl : JSValue) :
    Except String (Option String) :=
  if imageUrl.truthy = false then .ok none
  else
    match extractPublicId imageUrl with
    | none => .ok none
    | some publicId =>
      if publicId == "" then .ok none
      else
        match destroy publicId with
        | .ok => .ok (some publicId)
        | .notFound => .ok (some publicId)
        | .failed _ => .ok (some publicId)
        | .raised _ => .ok (some publicId)

/-! ## Slug-keyed metadata synchronizer (utils/seoSync.js, schema in
models/seo/seo-manager.js) -/

/-- One SEO Manager document.  Object ids are modelled as naturals; the
fields the code may assign null or leave unset are Options. -/
structure SeoRecord where
  _id : Nat
  title : Option String
  slug : String
  seo_keyphrase : Option String
  seo_title : Option String
  meta_description : String
  cover_image : String
  linkedService : Option Nat
  linkedHirePage : Option Nat
  linkedType : String
  isAutoManaged : Bool
deriving Repr, DecidableEq, Inhabited

/-- A linked Service or HirePageData document, reduced to the fields the
synchronizer touches. -/
structure ContentRecord where
  _id : Nat
  slug : String
  subCategory : Option String
deriving Repr, DecidableEq, Inhabited

/-- Truthiness of a nullable string. -/
def truthyStr : Option String → Bool
  | none => false
  | some s => !(s == "")

/-- Template-literal rendering of a nullable string (null prints as the
word null). -/
def jsTemplate : Option String → String
  | none => "null"
  | some s => s

/-- Result of the property read linkFieldMap of type in seoSync.js lines
16 to 20: the schema field name for one of the two own keys, a truthy
value inherited from Object.prototype for a prototype property name (the
guard that throws the invalid-type error tests truthiness and does not
fire on it), or undefined for every other name. -/
inductive LinkFieldValue where
  | field : String → LinkFieldValue
  | protoValue : LinkFieldValue
  | absent : LinkFieldValue
deriving Repr, DecidableEq

def linkFieldMap (ty : String) : LinkFieldValue :=
  if ty == "service" then .field "linkedService"
  else if ty == "hire" then .field "linkedHirePage"
  else if objectPrototypeKeys.contains ty then .protoValue
  else .absent

/-- Dynamic field read r[linkField] for the two link fields. -/
def getField (field : String) (r : SeoRecord) : Option Nat :=
  if field == "linkedService" then r.linkedService
  else if field == "linkedHirePage" then r.linkedHirePage
  else none

/-- Dynamic field write r[linkField] = v for the two link fields. -/
def setField (field : String) (v : Option Nat) (r : SeoRecord) : SeoRecord :=
  if field == "linkedService" then { r with linkedService := v }
  else if field == "linkedHirePage" then { r with linkedHirePage := v }
  else r

/-- Mongoose save of an already-loaded document: the stored document with
the same id is replaced. -/
def saveRecord (r : SeoRecord) (store : List SeoRecord) : List SeoRecord :=
  store.map (fun x => if x._id == r._id then r else x)

/-- utils/seoSync.js lines 11 to 91 (syncSeoData).  The store is the
SeoManager collection; freshId is the object id Mongo would assign to a
newly created document.  The first component of the result is the store
after the call; the second is the returned document, or the error the
function rethrows from its catch block. -/
def syncSeoData (store : List SeoRecord) (freshId : Nat) (subCategory : Option String)
    (slug : String) (title : Option String) (ty : String) (linkedId : Option Nat) :
    List SeoRecord × Except String SeoRecord :=
  let seoTitle := if truthyStr subCategory then subCategory else title
  match linkFieldMap ty with
  | .absent => (store, .error ("Invalid linkedType provided: " ++ ty))
  | .protoValue =>
    -- The inherited value is truthy, so the invalid-type guard does not
    -- fire and the lookups proceed.  The id lookup uses the stringified
    -- function as its query key, which no document carries, so it finds
    -- nothing; the slug lookup runs as usual.  Every branch that would
    -- write assigns linkedType := ty, which the schema enum of
    -- models/seo/seo-manager.js (service, hire, independent) rejects when
    -- the document is saved — no Object.prototype property name is one of
    -- those — so the store is never changed: the call ends in the
    -- rethrown validation error, or returns the matched record untouched
    -- when neither update guard holds.
    match store.find? (fun r => r.slug == slug) with
    | some e =>
      if !e.isAutoManaged && e.linkedType == "independent" then
        (store, .error ("ValidationError: linkedType: `" ++ ty
          ++ "` is not a valid enum value for path `linkedType`."))
      else if e.isAutoManaged || e.linkedType == ty then
        (store, .error ("ValidationError: linkedType: `" ++ ty
          ++ "` is not a valid enum value for path `linkedType`."))
      else (store, .ok e)
    | none =>
      (store, .error ("ValidationError: linkedType: `" ++ ty
        ++ "` is not a valid enum value for path `linkedType`."))
  | .field linkField =>
    let byId :=
      match linkedId with
      | some _ => store.find? (fun r => getField linkField r == linkedId)
      | none => none
    let existingSeo :=
      match byId with
      | some r => some r
      | none => store.find? (fun r => r.slug == slug)
    match existingSeo with
    | some e =>
      if !e.isAutoManaged && e.linkedType == "independent" then
        let e₁ := { e with
          title := seoTitle
          slug := slug
          seo_title := seoTitle
          linkedType := ty
          isAutoManaged := true }
        let e₂ := setField linkField linkedId e₁
        (saveRecord e₂ store, .ok e₂)
      else if e.isAutoManaged || e.linkedType == ty then
        let e₁ := { e with
          title := seoTitle
          slug := slug
          linkedType := ty
          isAutoManaged := true }
        let e₂ := setField linkField linkedId e₁
        (saveRecord e₂ store, .ok e₂)
      else
        (store, .ok e)
    | none =>
      let newSeo : SeoRecord :=
        { _id := freshId
          title := seoTitle
          slug := slug
          seo_keyphrase := seoTitle
          seo_title := seoTitle
          meta_description :=
            "Learn more about " ++ jsTemplate seoTitle ++ " - professional services and solutions"
          cover_image := ""
          linkedService := none
          linkedHirePage := none
          linkedType := ty
          isAutoManaged := true }
      let newSeo₂ := setField linkField linkedId newSeo
      (store ++ [newSeo₂], .ok newSeo₂)

/-- utils/seoSync.js lines 141 to 162 (safeDeleteSeoData): deletes only an
entry that is not auto-managed; an auto-managed entry blocks the deletion
and the call returns false. -/
def safeDeleteSeoData (store : List SeoRecord) (slug : String) :
    List SeoRecord × Bool :=
  match store.find? (fun r => r.slug == slug) with
  | some e =>
    if !e.isAutoManaged then (store.eraseP (fun r => r.slug == slug), true)
    else (store, false)
  | none => (store, true)

/-- utils/seoSync.js lines 167 to 175 (forceDeleteSeoData): unconditional
delete by slug. -/
def forceDeleteSeoData (store : List SeoRecord) (slug : String) :
    List SeoRecord × Bool :=
  (store.eraseP (fun r => r.slug == slug), true)

/-- Mongoose findByIdAndUpdate with new set: update the document with the
given id and return the updated document, or null when absent. -/
def findByIdAndUpdate (store : List ContentRecord) (id : Nat)
    (upd : ContentRecord → ContentRecord) : List ContentRecord × Option ContentRecord :=
  match store.find? (fun r => r._id == id) with
  | some r => (store.map (fun x => if x._id == id then upd x else x), some (upd r))
  | none => (store, none)

/-- utils/seoSync.js lines 96 to 135 (updateLinkedEntity): reverse sync of
a rename onto the linked content record.  The SeoManager store is read but
never written; the result carries it through unchanged, followed by the
two content stores and the returned entity. -/
def updateLinkedEntity (seoStore : List SeoRecord) (services hirePages : List ContentRecord)
    (seoSlug newSlug newTitle : String) :
    List SeoRecord × List ContentRecord × List ContentRecord × Option ContentRecord :=
  match seoStore.find? (fun r => r.slug == seoSlug) with
  | none => (seoStore, services, hirePages, none)
  | some seoEntry =>
    if !seoEntry.isAutoManaged || seoEntry.linkedType == "independent" then
      (seoStore, services, hirePages, none)
    else
      match seoEntry.linkedService with
      | some sid =>
        let res := findByIdAndUpdate services sid (fun r =>
          { r with
            slug := newSlug
            subCategory := if seoEntry.linkedType == "service" then some newTitle
                           else r.subCategory })
        (seoStore, res.1, hirePages, res.2)
      | none =>
        match seoEntry.linkedHirePage with
        | some hid =>
          let res := findByIdAndUpdate hirePages hid (fun r =>
            { r with
              slug := newSlug
              subCategory := if seoEntry.linkedType == "hire" then some newTitle
                             else r.subCategory })
          (seoStore, services, res.1, res.2)
        | none => (seoStore, services, hirePages, none)

/-- Exactly one of the two link fields is set. -/
def hasExactlyOneLink (r : SeoRecord) : Bool :=
  (r.linkedService.isSome && r.linkedHirePage.isNone)
  || (r.linkedService.isNone && r.linkedHirePage.isSome)

/-- The SEO Metadata Record invariant of the specification: auto-managed
exactly when the linked type is service or hire, exactly when exactly one
link field is set. -/
def seoInvariant (r : SeoRecord) : Bool :=
  (r.isAutoManaged == (r.linkedType == "service" || r.linkedType == "hire"))
  && (r.isAutoManaged == hasExactlyOneLink r)

/-- The link field of the opposite type: the one the call to syncSeoData
for type ty does not write. -/
def otherLink (ty : String) (r : SeoRecord) : Option Nat :=
  if ty == "service" then r.linkedHirePage else r.linkedService

/-- The link field of the call's own type. -/
def sameLink (ty : String) (r : SeoRecord) : Option Nat :=
  if ty == "service" then r.linkedService else r.linkedHirePage

/-! ## General lemmas about the embedded operations -/

theorem getNestedValue_falsy (obj : Option JSValue) (path : String)
    (h : truthyOpt obj = false) : getNestedValue obj path = none := by
  simp [getNestedValue, h]

theorem truthyOpt_of_getNestedValue (obj : Option JSValue) (path : String)
    (v : JSValue) (h : getNestedValue obj path = some v) : truthyOpt obj = true := by
  rcases htr : truthyOpt obj with _ | _
  · rw [getNestedValue_falsy obj path htr] at h
    cases h
  · rfl

/-! ## Claim theorems -/

/-- C2.  For every old/new document pair and every path containing no
bracket pair whose resolved old leaf is a single string, differential
cleanup marks exactly the old string for deletion when it differs (under
strict equality) from the resolved new value at the same path, including
when the new value is absent or empty, and marks nothing when they are
equal. -/
theorem diff_single_string_leaf (oldObj newObj : Option JSValue) (path : String) (s : String)
    (hb : (splitBrackets path.data).length < 2)
    (hleaf : getNestedValue oldObj path = some (.vStr s)) :
    compareAndDeleteByPath oldObj newObj path =
      if strictEqOpt (some (.vStr s)) (getNestedValue newObj path) then [] else [.vStr s] := by
  have htr := truthyOpt_of_getNestedValue oldObj path _ hleaf
  rw [compareAndDeleteByPath, htr]
  rw [if_neg (by simp), if_neg (by omega)]
  rw [compareSimplePath]
  simp only [hleaf]

/-- Witness for C2 at the specification's own example. -/
theorem diff_single_string_leaf_witness :
    compareAndDeleteByPath (some (.vObj [("image", .vStr "A")]))
        (some (.vObj [("image", .vStr "B")])) "image" = [.vStr "A"]
    ∧ compareAndDeleteByPath (some (.vObj [("image", .vStr "A")]))
        (some (.vObj [("image", .vStr "A")])) "image" = [] := by
  constructor
  · exact (diff_single_string_leaf (some (.vObj [("image", .vStr "A")]))
      (some (.vObj [("image", .vStr "B")])) "image" "A" (by decide) rfl).trans (by rfl)
  · exact (diff_single_string_leaf (some (.vObj [("image", .vStr "A")]))
      (some (.vObj [("image", .vStr "A")])) "image" "A" (by decide) rfl).trans (by rfl)

/-- C5 as amended.  Cleanup of a record type name that is neither
registered in the path descriptor table nor inherited from
Object.prototype requests no deletion and raises no error, for full
cleanup and for differential cleanup alike; when the unregistered name is
an Object.prototype property name, the config lookup yields a truthy
non-iterable inherited value instead of the empty list and the path loop
throws a TypeError (which the middleware turns into a 500 response). -/
theorem cleanup_unknown_type (record oldData newData : Option JSValue) (name : String)
    (h : imageConfig.lookup name = none)
    (hp : objectPrototypeKeys.contains name = false) :
    deleteImagesByConfig record name = .ok []
    ∧ cleanupOldImages oldData newData name = .ok [] := by
  have hcp : configPaths name = .pathList [] := by
    have hp2 : name ∉ objectPrototypeKeys := by simpa using hp
    unfold configPaths
    rw [h]
    simp [hp2]
  constructor
  · unfold deleteImagesByConfig
    rw [hcp]
    split <;> simp
  · unfold cleanupOldImages
    rw [hcp]
    simp

/-- Witness for C5 as amended: an unregistered record type. -/
theorem cleanup_unknown_type_witness :
    deleteImagesByConfig (some (.vObj [("image", .vStr "X")])) "UnknownModel" = .ok []
    ∧ cleanupOldImages (some (.vObj [("image", .vStr "X")]))
        (some (.vObj [("image", .vStr "Y")])) "UnknownModel" = .ok [] :=
  cleanup_unknown_type _ _ _ "UnknownModel" rfl (by decide)

/-- Counterexample to C5 as stated: the prototype property name toString
is not present in the registry, yet cleanup on it is not a no-op — the
inherited lookup value is truthy and not iterable, so both the full and
the differential path loop throw a TypeError. -/
theorem cleanup_proto_name_counterexample :
    imageConfig.lookup "toString" = none
    ∧ deleteImagesByConfig (some (.vObj [("image", .vStr "X")])) "toString"
        = .error "TypeError: paths is not iterable"
    ∧ cleanupOldImages (some (.vObj [("image", .vStr "X")]))
        (some (.vObj [("image", .vStr "Y")])) "toString"
        = .error "TypeError: paths is not iterable" :=
  ⟨rfl, rfl, rfl⟩

/-- C9 as amended.  A type argument other than service or hire that is
not an Object.prototype property name makes syncSeoData throw the
invalid-linkedType error before any lookup or write: the store is
returned unchanged next to the error.  For an inherited property name the
guard does not fire (the inherited value is truthy) and the call proceeds
to the metadata lookups. -/
theorem syncSeoData_invalid_type (store : List SeoRecord) (freshId : Nat)
    (subCategory : Option String) (slug : String) (title : Option String)
    (ty : String) (linkedId : Option Nat)
    (h1 : ty ≠ "service") (h2 : ty ≠ "hire")
    (h3 : objectPrototypeKeys.contains ty = false) :
    syncSeoData store freshId subCategory slug title ty linkedId =
      (store, .error ("Invalid linkedType provided: " ++ ty)) := by
  have hmap : linkFieldMap ty = .absent := by
    have h4 : ty ∉ objectPrototypeKeys := by simpa using h3
    unfold linkFieldMap
    rw [if_neg (by simp [h1]), if_neg (by simp [h2]), if_neg (by simp [h4])]
  rw [syncSeoData, hmap]

/-- Witness for C9 as amended at the concrete type blog. -/
theorem syncSeoData_invalid_type_witness :
    syncSeoData [] 0 (some "T") "s" none "blog" none =
      ([], .error "Invalid linkedType provided: blog") :=
  (syncSeoData_invalid_type [] 0 (some "T") "s" none "blog" none
    (by decide) (by decide) (by decide)).trans (by rfl)

/-- Counterexample to C9 as stated: with the prototype property name
toString as the type argument, the lookup yields the truthy inherited
function, the invalid-linkedType throw is skipped, and the call proceeds
past the lookups; on an empty store it creates a document whose
linkedType fails the schema enum, so the error that crosses the boundary
is a validation error, not the invalid-linkedType error the claim
requires. -/
theorem syncSeoData_proto_type_counterexample :
    (syncSeoData [] 0 (some "T") "s" none "toString" none).2 =
      .error
        "ValidationError: linkedType: `toString` is not a valid enum value for path `linkedType`."
    ∧ (syncSeoData [] 0 (some "T") "s" none "toString" none).2 ≠
      .error "Invalid linkedType provided: toString" := by
  refine ⟨rfl, fun hcon => ?_⟩
  have hval : (syncSeoData [] 0 (some "T") "s" none "toString" none).2
      = Except.error
          "ValidationError: linkedType: `toString` is not a valid enum value for path `linkedType`." :=
    rfl
  rw [hval] at hcon
  injection hcon with hmsg
  exact (by decide :
    ¬ ("ValidationError: linkedType: `toString` is not a valid enum value for path `linkedType`."
        = "Invalid linkedType provided: toString")) hmsg

/-- Counterexample to C6 as stated: syncSeoData does throw across its own
boundary, namely the invalid-linkedType error, which its catch block logs
and rethrows. -/
theorem syncSeoData_throws_counterexample :
    (syncSeoData [] 0 (some "T") "s" none "blog" none).2 =
      .error "Invalid linkedType provided: blog" := rfl

/-- C6 as amended.  The remote deletion gateway never propagates an
exception: for every destroy behaviour, including a throwing one, and
every input value, deleteImage returns normally, absorbing the failure
into logging. -/
theorem deleteImage_never_throws (destroy : String → DestroyOutcome) (url : JSValue) :
    ∃ r, deleteImage destroy url = .ok r := by
  rcases htr : url.truthy with _ | _
  · exact ⟨none, by simp [deleteImage, htr]⟩
  · rcases hx : extractPublicId url with _ | pid
    · exact ⟨none, by simp [deleteImage, htr, hx]⟩
    · rcases hp : pid == "" with _ | _
      · refine ⟨some pid, ?_⟩
        rw [deleteImage, htr]
        simp only [Bool.false_eq_true, if_false, hx, hp]
        cases destroy pid <;> rfl
      · exact ⟨none, by simp [deleteImage, htr, hx, hp]⟩

/-- Counterexample to C3 as stated: an old sequence element that exists
and differs from the new element at its index, but is the empty string, is
not marked for deletion. -/
theorem positional_diff_misses_empty_old :
    getNestedValue (some (.vObj [("images", .vArr [.vStr ""])])) "images"
      = some (.vArr [.vStr ""])
    ∧ getNestedValue (some (.vObj [("images", .vArr [.vStr "X"])])) "images"
      = some (.vArr [.vStr "X"])
    ∧ JSValue.vStr "" ≠ JSValue.vStr "X"
    ∧ compareSimplePath (some (.vObj [("images", .vArr [.vStr ""])]))
        (some (.vObj [("images", .vArr [.vStr "X"])])) "images" = [] :=
  ⟨rfl, rfl, by simp, rfl⟩

/-- The positional comparison rule in the words of the specification,
amended with the truthiness guard the counterexample to C3 forces: old
index i is marked exactly when the old element is truthy and differs from
the new element at the same index, and every truthy old element beyond the
end of the new sequence is marked. -/
def specPositionalDiff : List JSValue → List JSValue → List JSValue
  | [], _ => []
  | x :: xs, [] => (if x.truthy then [x] else []) ++ specPositionalDiff xs []
  | x :: xs, y :: ys =>
    (if x.truthy && !(jsStrictEq x y) then [x] else []) ++ specPositionalDiff xs ys

theorem strictEqOpt_some_none (x : JSValue) : strictEqOpt (some x) none = false := by
  rfl

theorem imageElemLoop_none (xs : List JSValue) (i : Nat) :
    imageElemLoop xs none i = specPositionalDiff xs [] := by
  induction xs generalizing i with
  | nil => rfl
  | cons x rest ih =>
    rw [imageElemLoop, specPositionalDiff, ih]
    simp [strictEqOpt_some_none, jsIdx]

theorem imageElemLoop_arr (xs ys : List JSValue) (i : Nat) :
    imageElemLoop xs (some (.vArr ys)) i = specPositionalDiff xs (ys.drop i) := by
  induction xs generalizing i with
  | nil => cases ys.drop i <;> rfl
  | cons x rest ih =>
    rw [imageElemLoop, ih]
    rcases hyi : ys[i]? with _ | y
    · have hlen : ys.length ≤ i := by simpa using List.getElem?_eq_none_iff.mp hyi
      have h1 : ys.drop i = [] := List.drop_eq_nil_of_le hlen
      have h2 : ys.drop (i + 1) = [] := List.drop_eq_nil_of_le (by omega)
      rw [h1, h2, specPositionalDiff]
      have hj : jsIdx (some (.vArr ys)) i = none := by
        show ys[i]? = none
        exact hyi
      rw [hj]
      simp [strictEqOpt_some_none]
    · obtain ⟨hlt, hget⟩ := List.getElem?_eq_some_iff.mp hyi
      have h1 : ys.drop i = y :: ys.drop (i + 1) := by
        rw [List.drop_eq_getElem_cons hlt, hget]
      rw [h1, specPositionalDiff]
      have hj : jsIdx (some (.vArr ys)) i = some y := by
        show ys[i]? = some y
        exact hyi
      rw [hj]
      rfl

/-- C3 as amended.  For a bracket-free path whose old leaf is a sequence,
and for a path consisting of an array prefix followed by a bracket pair
and nothing else, differential cleanup performs the positional comparison
of the specification restricted to truthy old elements: old index i is
marked exactly when the old element is truthy and differs from new index
i, and every truthy old element beyond the length of the new sequence
(in particular when the new leaf is absent) is marked. -/
theorem diff_sequence_leaf_positional (oldObj newObj : Option JSValue) (path : String)
    (xs : List JSValue)
    (hb : (splitBrackets path.data).length < 2)
    (hleaf : getNestedValue oldObj path = some (.vArr xs)) :
    (∀ ys, getNestedValue newObj path = some (.vArr ys) →
        compareAndDeleteByPath oldObj newObj path = specPositionalDiff xs ys)
    ∧ (getNestedValue newObj path = none →
        compareAndDeleteByPath oldObj newObj path = specPositionalDiff xs [])
    ∧ (∀ (path₂ : String) (a : List Char) (xs₂ ys₂ : List JSValue),
        splitBrackets path₂.data = [a, []] →
        getNestedValue oldObj (arrayPathOf path₂.data) = some (.vArr xs₂) →
        getNestedValue newObj (arrayPathOf path₂.data) = some (.vArr ys₂) →
        compareAndDeleteByPath oldObj newObj path₂ = specPositionalDiff xs₂ ys₂) := by
  have htr := truthyOpt_of_getNestedValue oldObj path _ hleaf
  have hsimple : compareAndDeleteByPath oldObj newObj path =
      compareSimplePath oldObj newObj path := by
    rw [compareAndDeleteByPath, htr]
    rw [if_neg (by simp), if_neg (by omega)]
  refine ⟨?_, ?_, ?_⟩
  · intro ys hnew
    rw [hsimple, compareSimplePath]
    simp only [hleaf, hnew]
    have := imageElemLoop_arr xs ys 0
    simpa using this
  · intro hnew
    rw [hsimple, compareSimplePath]
    simp only [hleaf, hnew]
    exact imageElemLoop_none xs 0
  · intro path₂ a xs₂ ys₂ hsplit hold hnew
    have htr₂ := truthyOpt_of_getNestedValue oldObj (arrayPathOf path₂.data) _ hold
    rw [compareAndDeleteByPath, htr₂]
    rw [if_neg (by simp), if_pos (by rw [hsplit]; simp)]
    rw [compareArrayPath]
    simp only [hold, hnew]
    have hrem : remainingPathOf path₂.data = "" := by
      rw [remainingPathOf, hsplit]
      rfl
    rw [dif_pos hrem]
    have := imageElemLoop_arr xs₂ ys₂ 0
    simpa using this

/-- Witness for C3 as amended, at the specification's positional example. -/
theorem diff_sequence_leaf_positional_witness :
    compareAndDeleteByPath
        (some (.vObj [("images", .vArr [.vStr "A", .vStr "B", .vStr "C"])]))
        (some (.vObj [("images", .vArr [.vStr "A", .vStr "X"])])) "images"
      = [.vStr "B", .vStr "C"] :=
  ((diff_sequence_leaf_positional
      (some (.vObj [("images", .vArr [.vStr "A", .vStr "B", .vStr "C"])]))
      (some (.vObj [("images", .vArr [.vStr "A", .vStr "X"])])) "images"
      [.vStr "A", .vStr "B", .vStr "C"] (by decide) rfl).1
    [.vStr "A", .vStr "X"] rfl).trans (by rfl)

theorem foldl_nestedStep_none (keys : List (List Char)) :
    keys.foldl nestedStep none = none := by
  induction keys with
  | nil => rfl
  | cons k rest ih => rw [List.foldl_cons, nestedStep, ih]

/-- Resolving any path against a value that is not object-typed yields
undefined. -/
theorem getNestedValue_non_object (x : JSValue) (p : String)
    (h : x.isObjectType = false) : getNestedValue (some x) p = none := by
  rw [getNestedValue]
  by_cases hc : (!truthyOpt (some x) || p == "") = true
  · rw [if_pos hc]
  · rw [if_neg hc]
    rcases hsp : splitChar '.' p.data with _ | ⟨k, ks⟩
    · exact absurd hsp (splitChar_ne_nil _ _)
    · rw [List.foldl_cons]
      have hstep : nestedStep (some x) k = none := by
        rw [nestedStep, h]
        simp
      rw [hstep, foldl_nestedStep_none]

/-- Differential cleanup of any path against an old context that is falsy
or not object-typed marks nothing. -/
theorem compareAndDeleteByPath_non_object (x : JSValue) (n : Option JSValue) (rem : String)
    (h : (x.truthy && x.isObjectType) = false) :
    compareAndDeleteByPath (some x) n rem = [] := by
  rcases htr : x.truthy with _ | _
  · rw [compareAndDeleteByPath]
    simp [truthyOpt, htr]
  · have hobj : x.isObjectType = false := by
      rw [htr] at h
      simpa using h
    rw [compareAndDeleteByPath]
    have htro : truthyOpt (some x) = true := htr
    rw [htro]
    rw [if_neg (by simp)]
    split
    · rw [compareArrayPath]
      rw [getNestedValue_non_object x _ hobj]
    · rw [compareSimplePath]
      rw [getNestedValue_non_object x _ hobj]

/-- The array walk in the words of the specification: positionally pair
the old elements with the new elements and recurse the differ on the
remaining sub-path for every pair, with an absent new context beyond the
end of the new array. -/
def specArrayWalk (oldXs newYs : List JSValue) (rem : String) (i : Nat) : List JSValue :=
  match oldXs with
  | [] => []
  | x :: rest =>
    compareAndDeleteByPath (some x) (newYs[i]?) rem ++ specArrayWalk rest newYs rem (i + 1)

theorem nestedItemsLoop_arr (xs ys : List JSValue) (rem : String) (i : Nat) :
    nestedItemsLoop xs (some (.vArr ys)) rem i = specArrayWalk xs ys rem i := by
  induction xs generalizing i with
  | nil => simp [nestedItemsLoop, specArrayWalk]
  | cons x rest ih =>
    rw [nestedItemsLoop, specArrayWalk, ih]
    by_cases hg : (x.truthy && x.isObjectType) = true
    · rw [if_pos hg]
      rfl
    · have hskip : ∀ n, compareAndDeleteByPath (some x) n rem = [] :=
        fun n => compareAndDeleteByPath_non_object x n rem (Bool.eq_false_iff.mpr hg)
      rw [if_neg hg, hskip]

theorem nestedItemsLoop_none (xs : List JSValue) (rem : String) (i : Nat) :
    nestedItemsLoop xs none rem i = specArrayWalk xs [] rem i := by
  induction xs generalizing i with
  | nil => simp [nestedItemsLoop, specArrayWalk]
  | cons x rest ih =>
    rw [nestedItemsLoop, specArrayWalk, ih]
    by_cases hg : (x.truthy && x.isObjectType) = true
    · rw [if_pos hg]
      rfl
    · have hskip : ∀ n, compareAndDeleteByPath (some x) n rem = [] :=
        fun n => compareAndDeleteByPath_non_object x n rem (Bool.eq_false_iff.mpr hg)
      rw [if_neg hg, hskip]

/-- C4 as amended.  For a path with exactly one bracket segment followed
by a nonempty sub-path, differential cleanup resolves the array prefix on
both documents and performs the positional walk of the specification,
recursing the sub-path on each old/new element pair (an old element that
is falsy or not object-typed contributes nothing, which coincides with
what the recursion itself would produce).  For a path with several
bracket segments the code recurses only on the text between the first and
second bracket pair, which the counterexample shows diverges from the
specification's walk. -/
theorem diff_nested_array_walk (oldObj newObj : Option JSValue) (path : String)
    (a r : List Char) (xs ys : List JSValue)
    (hsplit : splitBrackets path.data = [a, r])
    (hrem : r.drop 1 ≠ [])
    (hold : getNestedValue oldObj (arrayPathOf path.data) = some (.vArr xs))
    (hnew : getNestedValue newObj (arrayPathOf path.data) = some (.vArr ys)
            ∨ (getNestedValue newObj (arrayPathOf path.data) = none ∧ ys = [])) :
    compareAndDeleteByPath oldObj newObj path
      = specArrayWalk xs ys (String.mk (r.drop 1)) 0 := by
  have htr : truthyOpt oldObj = true :=
    truthyOpt_of_getNestedValue oldObj (arrayPathOf path.data) _ hold
  have hremEq : remainingPathOf path.data = String.mk (r.drop 1) := by
    rw [remainingPathOf, hsplit]
    rfl
  have hremNe : remainingPathOf path.data ≠ "" := by
    rw [hremEq]
    intro hcon
    apply hrem
    have := congrArg String.data hcon
    simpa using this
  rw [compareAndDeleteByPath, htr]
  rw [if_neg (by simp), if_pos (by rw [hsplit]; simp)]
  rw [compareArrayPath]
  simp only [hold]
  rw [dif_neg hremNe, hremEq]
  rcases hnew with hnew | ⟨hnew, hys⟩
  · simp only [hnew]
    exact nestedItemsLoop_arr xs ys _ 0
  · simp only [hnew, hys]
    exact nestedItemsLoop_none xs _ 0

/-- Counterexample to C4 as stated: on a path with two bracket segments
the code does not recurse the remaining sub-path.  The specification's
walk with the true remaining sub-path marks the changed string, while the
code marks the whole intermediate object instead. -/
theorem nested_path_truncation_counterexample :
    compareAndDeleteByPath
        (some (.vObj [("a", .vArr [.vObj [("b", .vArr [.vObj [("c", .vStr "A")]])]])]))
        (some (.vObj [("a", .vArr [.vObj [("b", .vArr [.vObj [("c", .vStr "B")]])]])]))
        "a[].b[].c"
      = [.vObj [("c", .vStr "A")]]
    ∧ specArrayWalk [.vObj [("b", .vArr [.vObj [("c", .vStr "A")]])]]
        [.vObj [("b", .vArr [.vObj [("c", .vStr "B")]])]] "b[].c" 0
      = [.vStr "A"]
    ∧ ([JSValue.vObj [("c", .vStr "A")]] : List JSValue) ≠ [.vStr "A"] := by
  refine ⟨?_, ?_, by simp⟩
  · simp [compareAndDeleteByPath, compareArrayPath, nestedItemsLoop, compareSimplePath,
      getNestedValue, nestedStep, imageElemLoop, truthyOpt, JSValue.truthy,
      JSValue.isObjectType, propLookup, arrayPathOf, remainingPathOf, splitBrackets,
      splitChar, jsIdx, strictEqOpt, jsStrictEq]
  · simp [specArrayWalk, compareAndDeleteByPath, compareArrayPath, nestedItemsLoop,
      compareSimplePath, getNestedValue, nestedStep, imageElemLoop, truthyOpt,
      JSValue.truthy, JSValue.isObjectType, propLookup, arrayPathOf, remainingPathOf,
      splitBrackets, splitChar, jsIdx, strictEqOpt, jsStrictEq]

/-- Witness for C4 as amended, at the specification's nested example. -/
theorem diff_nested_array_walk_witness :
    compareAndDeleteByPath
        (some (.vObj [("points", .vArr [.vObj [("image", .vStr "A")], .vObj [("image", .vStr "B")]])]))
        (some (.vObj [("points", .vArr [.vObj [("image", .vStr "A")], .vObj [("image", .vStr "C")]])]))
        "points[].image"
      = [.vStr "B"] := by
  have h := diff_nested_array_walk
    (some (.vObj [("points", .vArr [.vObj [("image", .vStr "A")], .vObj [("image", .vStr "B")]])]))
    (some (.vObj [("points", .vArr [.vObj [("image", .vStr "A")], .vObj [("image", .vStr "C")]])]))
    "points[].image"
    "points".data ".image".data
    [.vObj [("image", .vStr "A")], .vObj [("image", .vStr "B")]]
    [.vObj [("image", .vStr "A")], .vObj [("image", .vStr "C")]]
    (by decide) (by decide) rfl (Or.inl rfl)
  refine h.trans ?_
  simp [specArrayWalk, compareAndDeleteByPath, compareArrayPath, nestedItemsLoop,
    compareSimplePath, getNestedValue, nestedStep, imageElemLoop, truthyOpt,
    JSValue.truthy, JSValue.isObjectType, propLookup, arrayPathOf, remainingPathOf,
    splitBrackets, splitChar, jsIdx, strictEqOpt, jsStrictEq]

/-! ## Lemmas about the gateway's identifier derivation -/

theorem splitChar_head_takeWhile (sep : Char) (cs : List Char) :
    (splitChar sep cs).headD [] = cs.takeWhile (fun c => !(c == sep)) := by
  induction cs with
  | nil => rfl
  | cons c rest ih =>
    rw [splitChar]
    by_cases hc : c = sep
    · rw [if_pos hc]
      simp [List.takeWhile_cons, hc]
    · rw [if_neg hc]
      rcases hsp : splitChar sep rest with _ | ⟨s, ss⟩
      · exact absurd hsp (splitChar_ne_nil _ _)
      · rw [hsp] at ih
        simp only [List.headD_cons] at ih
        simp [List.takeWhile_cons, hc, ← ih]

theorem splitChar_no_sep (sep : Char) (cs : List Char) (h : ∀ c ∈ cs, ¬(c = sep)) :
    splitChar sep cs = [cs] := by
  induction cs with
  | nil => rfl
  | cons c rest ih =>
    rw [splitChar, if_neg (h c (by simp))]
    rw [ih (fun x hx => h x (by simp [hx]))]

/-- The last fragment does not depend on the default when the list is
nonempty. -/
theorem getLastD_irrel (l : List (List Char)) (h : l ≠ []) (d₁ d₂ : List Char) :
    l.getLastD d₁ = l.getLastD d₂ := by
  cases l with
  | nil => exact absurd rfl h
  | cons a t => rfl

theorem splitChar_mem_sep_len (sep : Char) :
    ∀ (pre rest : List Char), 2 ≤ (splitChar sep (pre ++ sep :: rest)).length
  | [], rest => by
    simp only [List.nil_append, splitChar, if_pos rfl, List.length_cons]
    have := splitChar_ne_nil sep rest
    rcases hsp : splitChar sep rest with _ | ⟨s, ss⟩
    · exact absurd hsp this
    · simp [hsp]
  | c :: pre, rest => by
    simp only [List.cons_append, splitChar]
    by_cases hc : c = sep
    · rw [if_pos hc]
      have := splitChar_ne_nil sep (pre ++ sep :: rest)
      rcases hsp : splitChar sep (pre ++ sep :: rest) with _ | ⟨s, ss⟩
      · exact absurd hsp this
      · simp [hsp]
    · rw [if_neg hc]
      have ih := splitChar_mem_sep_len sep pre rest
      rcases hsp : splitChar sep (pre ++ sep :: rest) with _ | ⟨s, ss⟩
      · exact absurd hsp (splitChar_ne_nil _ _)
      · rw [hsp] at ih
        simp at ih ⊢
        omega

/-- The fragment after the last separator is determined by the text after
the first separator. -/
theorem splitChar_getLastD_append (sep : Char) :
    ∀ (pre rest : List Char),
      (splitChar sep (pre ++ sep :: rest)).getLastD []
        = (splitChar sep rest).getLastD []
  | [], rest => by
    have hstep : splitChar sep (sep :: rest) = [] :: splitChar sep rest := by
      rw [splitChar, if_pos rfl]
    rw [List.nil_append, hstep, List.getLastD_cons]
  | c :: pre, rest => by
    rw [List.cons_append]
    by_cases hc : c = sep
    · subst hc
      have hstep : splitChar c (c :: (pre ++ c :: rest)) = [] :: splitChar c (pre ++ c :: rest) := by
        rw [splitChar, if_pos rfl]
      rw [hstep, List.getLastD_cons]
      exact splitChar_getLastD_append c pre rest
    · rcases hsp : splitChar sep (pre ++ sep :: rest) with _ | ⟨s, ss⟩
      · exact absurd hsp (splitChar_ne_nil _ _)
      · have hstep : splitChar sep (c :: (pre ++ sep :: rest)) = (c :: s) :: ss := by
          rw [splitChar, if_neg hc, hsp]
        have hlen := splitChar_mem_sep_len sep pre rest
        rw [hsp] at hlen
        have hss : ss ≠ [] := by
          intro hcon
          rw [hcon] at hlen
          simp at hlen
        have ih := splitChar_getLastD_append sep pre rest
        rw [hsp] at ih
        rw [hstep, List.getLastD_cons, ← ih, List.getLastD_cons]
        exact getLastD_irrel ss hss _ _

/-- A nonempty character list does not make the empty string. -/
theorem stringMk_ne_empty (cs : List Char) (h : cs ≠ []) : String.mk cs ≠ "" := by
  intro hcon
  apply h
  have := congrArg String.data hcon
  simpa using this

/-- C7 as amended, part of the derivation: on a string reference, the
derived asset identifier is the last slash-separated segment truncated at
its first dot; the reference's own segment structure is irrelevant except
through that suffix. -/
theorem extractPublicId_last_segment :
    (∀ (pre seg : List Char), (∀ c ∈ seg, ¬(c = '/')) →
        extractPublicId (.vStr (String.mk (pre ++ '/' :: seg)))
          = some (String.mk (seg.takeWhile (fun c => !(c == '.')))))
    ∧ (∀ (seg : List Char), seg ≠ [] → (∀ c ∈ seg, ¬(c = '/')) →
        extractPublicId (.vStr (String.mk seg))
          = some (String.mk (seg.takeWhile (fun c => !(c == '.'))))) := by
  constructor
  · intro pre seg hsep
    have hne : String.mk (pre ++ '/' :: seg) ≠ "" := stringMk_ne_empty _ (by simp)
    have htr : (JSValue.vStr (String.mk (pre ++ '/' :: seg))).truthy = true := by
      simp [JSValue.truthy, hne]
    rw [extractPublicId, htr]
    rw [if_neg (by simp)]
    have hlast : (splitChar '/' (pre ++ '/' :: seg)).getLastD [] = seg := by
      rw [splitChar_getLastD_append, splitChar_no_sep _ _ hsep]
      rfl
    simp only [hlast, splitChar_head_takeWhile]
  · intro seg hne0 hsep
    have hne : String.mk seg ≠ "" := stringMk_ne_empty _ hne0
    have htr : (JSValue.vStr (String.mk seg)).truthy = true := by
      simp [JSValue.truthy, hne]
    rw [extractPublicId, htr]
    rw [if_neg (by simp)]
    have hlast : (splitChar '/' seg).getLastD [] = seg := by
      rw [splitChar_no_sep _ _ hsep]
      rfl
    simp only [hlast, splitChar_head_takeWhile]

/-- C7 as amended, gating part: for every destroy behaviour and reference,
the gateway attempts exactly one deletion, of the derived identifier, when
that identifier exists and is nonempty, and fails closed (no attempt)
exactly when the reference is falsy or not a string, so that no identifier
derives, or the derived identifier is empty.  The origin of the reference
plays no role. -/
theorem deleteImage_attempt_formula (destroy : String → DestroyOutcome) (url : JSValue) :
    deleteImage destroy url =
      .ok ((extractPublicId url).bind (fun pid => if pid == "" then none else some pid)) := by
  rcases htr : url.truthy with _ | _
  · have hx : extractPublicId url = none := by
      cases url <;> simp [extractPublicId, htr]
    rw [deleteImage, htr, hx, if_pos rfl]
    rfl
  · rw [deleteImage, htr]
    rw [if_neg (by simp)]
    rcases hx : extractPublicId url with _ | pid
    · simp [hx]
    · rcases hp : pid == "" with _ | _
      · have hpne : pid ≠ "" := by simpa using hp
        simp only [hx, hp, Option.bind_some]
        rw [if_neg (by simp)]
        cases destroy pid <;> simp [hpne]
      · have hpe : pid = "" := by simpa using hp
        simp [hx, hp, hpe]

/-- Counterexample to C7 as stated: a reference that this system's upload
path never produced still gets a deletion attempt with the lossily derived
identifier, rather than failing closed. -/
theorem deleteImage_foreign_reference_attempted :
    deleteImage (fun _ => .ok) (.vStr "https://example.org/photo.png") = .ok (some "photo")
    ∧ deleteImage (fun _ => .raised "network down") (.vStr "https://example.org/photo.png")
        = .ok (some "photo") :=
  ⟨rfl, rfl⟩

/-- C10.  Differential cleanup never requests deletion of a falsy old
leaf: every value the positional loop marks is truthy, the nested walk
skips an old element that is falsy or not object-typed, and the gateway
attempts nothing for a falsy reference. -/
theorem diff_never_marks_falsy :
    (∀ (xs : List JSValue) (nv : Option JSValue) (i : Nat) (x : JSValue),
        x ∈ imageElemLoop xs nv i → x.truthy = true)
    ∧ (∀ (x : JSValue) (rest : List JSValue) (nv : Option JSValue) (rem : String) (i : Nat),
        (x.truthy && x.isObjectType) = false →
        nestedItemsLoop (x :: rest) nv rem i = nestedItemsLoop rest nv rem (i + 1))
    ∧ (∀ (destroy : String → DestroyOutcome) (v : JSValue), v.truthy = false →
        deleteImage destroy v = .ok none) := by
  refine ⟨?_, ?_, ?_⟩
  · intro xs
    induction xs with
    | nil =>
      intro nv i x h
      simp [imageElemLoop] at h
    | cons y rest ih =>
      intro nv i x h
      rw [imageElemLoop] at h
      rcases List.mem_append.mp h with h1 | h2
      · by_cases hg : (y.truthy && !(strictEqOpt (some y) (jsIdx nv i))) = true
        · rw [if_pos hg] at h1
          have hxy : x = y := by simpa using h1
          subst hxy
          have h' := hg
          simp only [Bool.and_eq_true] at h'
          exact h'.1
        · rw [if_neg hg] at h1
          simp at h1
      · exact ih nv (i + 1) x h2
  · intro x rest nv rem i h
    rw [nestedItemsLoop]
    rw [if_neg (by simp [h])]
    simp
  · intro destroy v h
    rw [deleteImage, h, if_pos rfl]

/-- Witness for C10 at concrete inputs. -/
theorem diff_never_marks_falsy_witness :
    (JSValue.vStr "a").truthy = true
    ∧ nestedItemsLoop [.vStr ""] none "image" 0 = nestedItemsLoop [] none "image" 1
    ∧ deleteImage (fun _ => .ok) .vNull = .ok none := by
  refine ⟨?_, ?_, ?_⟩
  · refine diff_never_marks_falsy.1 [.vStr "a"] none 0 _ ?_
    show JSValue.vStr "a" ∈ imageElemLoop [.vStr "a"] none 0
    exact List.mem_singleton.mpr rfl
  · exact diff_never_marks_falsy.2.1 (.vStr "") [] none "image" 0 rfl
  · exact diff_never_marks_falsy.2.2 (fun _ => .ok) .vNull rfl

/-! ## Lemmas about the synchronizer -/

theorem mem_saveRecord {r e : SeoRecord} {store : List SeoRecord}
    (h : r ∈ saveRecord e store) : r = e ∨ r ∈ store := by
  rw [saveRecord] at h
  rcases List.mem_map.mp h with ⟨x, hx, hfx⟩
  by_cases hid : (x._id == e._id) = true
  · rw [if_pos hid] at hfx
    exact Or.inl hfx.symm
  · rw [if_neg hid] at hfx
    rw [← hfx]
    exact Or.inr hx

theorem linkFieldMap_cases (ty lf : String) (h : linkFieldMap ty = .field lf) :
    (ty = "service" ∧ lf = "linkedService") ∨ (ty = "hire" ∧ lf = "linkedHirePage") := by
  unfold linkFieldMap at h
  by_cases h1 : (ty == "service") = true
  · rw [if_pos h1] at h
    left
    refine ⟨by simpa using h1, ?_⟩
    injection h with hf
    exact hf.symm
  · rw [if_neg h1] at h
    by_cases h2 : (ty == "hire") = true
    · rw [if_pos h2] at h
      right
      refine ⟨by simpa using h2, ?_⟩
      injection h with hf
      exact hf.symm
    · rw [if_neg h2] at h
      by_cases h3 : (objectPrototypeKeys.contains ty) = true
      · rw [if_pos h3] at h
        cases h
      · rw [if_neg h3] at h
        cases h

theorem seoInvariant_setLink (e₁ : SeoRecord) (ty lf : String) (i : Nat)
    (hcase : (ty = "service" ∧ lf = "linkedService") ∨ (ty = "hire" ∧ lf = "linkedHirePage"))
    (hauto : e₁.isAutoManaged = true) (hty : e₁.linkedType = ty)
    (hother : otherLink ty e₁ = none) :
    seoInvariant (setField lf (some i) e₁) = true := by
  rcases hcase with ⟨h1, h2⟩ | ⟨h1, h2⟩
  · subst h1
    subst h2
    simp only [otherLink] at hother
    simp at hother
    simp [setField, seoInvariant, hasExactlyOneLink, hauto, hty, hother]
  · subst h1
    subst h2
    simp only [otherLink] at hother
    simp at hother
    simp [setField, seoInvariant, hasExactlyOneLink, hauto, hty, hother]

/-- Exhaustive description of the store syncSeoData leaves behind when it
is called with a valid type and a non-null id: unchanged, or one matched
record (by link id or by slug) rewritten with the call's type, link and
auto-managed flag, or a fresh record of the call's type appended. -/
theorem syncSeoData_cases (store : List SeoRecord) (freshId : Nat) (sub title : Option String)
    (slug ty lf : String) (i : Nat) (hmap : linkFieldMap ty = .field lf) :
    (syncSeoData store freshId sub slug title ty (some i)).1 = store
    ∨ (∃ e, e ∈ store
        ∧ (getField lf e = some i ∨ e.slug = slug)
        ∧ ∃ e₁ : SeoRecord,
            (syncSeoData store freshId sub slug title ty (some i)).1
                = saveRecord (setField lf (some i) e₁) store
            ∧ e₁.isAutoManaged = true ∧ e₁.linkedType = ty
            ∧ otherLink ty e₁ = otherLink ty e)
    ∨ (∃ n : SeoRecord,
        (syncSeoData store freshId sub slug title ty (some i)).1
            = store ++ [setField lf (some i) n]
        ∧ n.isAutoManaged = true ∧ n.linkedType = ty ∧ otherLink ty n = none) := by
  unfold syncSeoData
  rw [hmap]
  simp only []
  rcases h₁ : store.find? (fun r => getField lf r == some i) with _ | e₀
  · try rw [h₁]
    try simp only []
    rcases h₂ : store.find? (fun r => r.slug == slug) with _ | e
    · try rw [h₂]
      try simp only []
      refine Or.inr (Or.inr ⟨_, rfl, rfl, rfl, ?_⟩)
      rw [otherLink]
      split <;> rfl
    · try rw [h₂]
      try simp only []
      have hmem := List.mem_of_find?_eq_some h₂
      have hslug : e.slug = slug := by
        have := List.find?_some h₂
        simpa using this
      by_cases hg1 : (!e.isAutoManaged && e.linkedType == "independent") = true
      · rw [if_pos hg1]
        exact Or.inr (Or.inl ⟨e, hmem, Or.inr hslug, _, rfl, rfl, rfl, rfl⟩)
      · rw [if_neg hg1]
        by_cases hg2 : (e.isAutoManaged || e.linkedType == ty) = true
        · rw [if_pos hg2]
          exact Or.inr (Or.inl ⟨e, hmem, Or.inr hslug, _, rfl, rfl, rfl, rfl⟩)
        · rw [if_neg hg2]
          exact Or.inl rfl
  · try rw [h₁]
    try simp only []
    have hmem := List.mem_of_find?_eq_some h₁
    have hlinked : getField lf e₀ = some i := by
      have := List.find?_some h₁
      simpa using this
    by_cases hg1 : (!e₀.isAutoManaged && e₀.linkedType == "independent") = true
    · rw [if_pos hg1]
      exact Or.inr (Or.inl ⟨e₀, hmem, Or.inl hlinked, _, rfl, rfl, rfl, rfl⟩)
    · rw [if_neg hg1]
      by_cases hg2 : (e₀.isAutoManaged || e₀.linkedType == ty) = true
      · rw [if_pos hg2]
        exact Or.inr (Or.inl ⟨e₀, hmem, Or.inl hlinked, _, rfl, rfl, rfl, rfl⟩)
      · rw [if_neg hg2]
        exact Or.inl rfl

/-- When the type argument is an Object.prototype property name, every
path through syncSeoData leaves the store unchanged: the id lookup finds
nothing, and each branch that would write fails the linkedType enum at
save, so only the error or the untouched matched record comes back. -/
theorem syncSeoData_proto_store (store : List SeoRecord) (freshId : Nat)
    (sub title : Option String) (slug ty : String) (linkedId : Option Nat)
    (hmap : linkFieldMap ty = .protoValue) :
    (syncSeoData store freshId sub slug title ty linkedId).1 = store := by
  unfold syncSeoData
  rw [hmap]
  try simp only []
  rcases hf : store.find? (fun r => r.slug == slug) with _ | e
  · try rw [hf]
    try rfl
  · try rw [hf]
    try simp only []
    by_cases hg1 : (!e.isAutoManaged && e.linkedType == "independent") = true
    · rw [if_pos hg1]
    · rw [if_neg hg1]
      by_cases hg2 : (e.isAutoManaged || e.linkedType == ty) = true
      · rw [if_pos hg2]
      · rw [if_neg hg2]

/-- C1 as amended.  Every synchronizer operation preserves the SEO
Metadata Record invariant, provided syncSeoData is called with a non-null
linkedId and no stored record that the call can match (same slug, or
already carrying that id in the link field of the call's type) carries a
link of the other type.  The deletions and the reverse-sync operation
preserve the invariant unconditionally (the latter never writes the
metadata store). -/
theorem seo_ops_preserve_invariant (store : List SeoRecord) (freshId : Nat)
    (subCategory title : Option String) (slug ty : String) (i : Nat)
    (hinv : ∀ r ∈ store, seoInvariant r = true)
    (hlink : ∀ r ∈ store, (r.slug = slug ∨ sameLink ty r = some i) → otherLink ty r = none) :
    (∀ r ∈ (syncSeoData store freshId subCategory slug title ty (some i)).1,
        seoInvariant r = true)
    ∧ (∀ r ∈ (safeDeleteSeoData store slug).1, seoInvariant r = true)
    ∧ (∀ r ∈ (forceDeleteSeoData store slug).1, seoInvariant r = true)
    ∧ (∀ (services hirePages : List ContentRecord) (seoSlug newSlug newTitle : String),
        (updateLinkedEntity store services hirePages seoSlug newSlug newTitle).1 = store) := by
  refine ⟨?_, ?_, ?_, ?_⟩
  · intro r hr
    rcases hmap : linkFieldMap ty with lf | _ | _
    · have hcase := linkFieldMap_cases ty lf hmap
      have hsame : ∀ e : SeoRecord, getField lf e = sameLink ty e := by
        intro e
        rcases hcase with ⟨h1, h2⟩ | ⟨h1, h2⟩ <;> subst h1 <;> subst h2 <;>
          simp [getField, sameLink]
      rcases syncSeoData_cases store freshId subCategory title slug ty lf i hmap with
        hres | ⟨e, he, hcond, e₁, hres, ha, ht, ho⟩ | ⟨n, hres, ha, ht, ho⟩
      · rw [hres] at hr
        exact hinv r hr
      · rw [hres] at hr
        rcases mem_saveRecord hr with rfl | hmem
        · have hcond' : e.slug = slug ∨ sameLink ty e = some i := by
            rcases hcond with hc | hc
            · exact Or.inr (by rw [← hsame]; exact hc)
            · exact Or.inl hc
          have hoth := hlink e he hcond'
          exact seoInvariant_setLink e₁ ty lf i hcase ha ht (ho.trans hoth)
        · exact hinv r hmem
      · rw [hres] at hr
        rcases List.mem_append.mp hr with hmem | hmem
        · exact hinv r hmem
        · have hrn : r = setField lf (some i) n := by simpa using hmem
          rw [hrn]
          exact seoInvariant_setLink n ty lf i hcase ha ht ho
    · rw [syncSeoData_proto_store store freshId subCategory title slug ty (some i) hmap] at hr
      exact hinv r hr
    · have hres : (syncSeoData store freshId subCategory slug title ty (some i)).1 = store := by
        unfold syncSeoData
        rw [hmap]
      rw [hres] at hr
      exact hinv r hr
  · intro r hr
    rw [safeDeleteSeoData] at hr
    rcases hf : store.find? (fun x => x.slug == slug) with _ | e
    · rw [hf] at hr
      simp only [] at hr
      exact hinv r hr
    · rw [hf] at hr
      simp only [] at hr
      by_cases hauto : (!e.isAutoManaged) = true
      · rw [if_pos hauto] at hr
        simp only [] at hr
        exact hinv r ((List.eraseP_sublist store).mem hr)
      · rw [if_neg hauto] at hr
        simp only [] at hr
        exact hinv r hr
  · intro r hr
    rw [forceDeleteSeoData] at hr
    simp only [] at hr
    exact hinv r ((List.eraseP_sublist store).mem hr)
  · intro services hirePages seoSlug newSlug newTitle
    rw [updateLinkedEntity]
    rcases hf : store.find? (fun x => x.slug == seoSlug) with _ | e
    · rw [hf]
    · rw [hf]
      simp only []
      by_cases hg : (!e.isAutoManaged || e.linkedType == "independent") = true
      · rw [if_pos hg]
      · rw [if_neg hg]
        rcases hls : e.linkedService with _ | sid
        · rcases hlh : e.linkedHirePage with _ | hid
          · rfl
          · rfl
        · rfl

/-- Counterexample to C1 as stated: syncSeoData called with a null
linkedId converts an independent record to auto-managed with no link set,
and called with type hire on a slug already linked to a service it sets
both link fields; in both runs a store satisfying the invariant is left
with a record violating it. -/
theorem seo_invariant_broken_counterexample :
    (([⟨1, some "T", "s", none, none, "", "", none, none, "independent", false⟩]
        : List SeoRecord).all seoInvariant = true
      ∧ ((syncSeoData [⟨1, some "T", "s", none, none, "", "", none, none, "independent", false⟩]
            2 (some "T2") "s" none "service" none).1).all seoInvariant = false)
    ∧ (([⟨1, some "T", "s", none, none, "", "", some 1, none, "service", true⟩]
        : List SeoRecord).all seoInvariant = true
      ∧ ((syncSeoData [⟨1, some "T", "s", none, none, "", "", some 1, none, "service", true⟩]
            2 (some "T2") "s" none "hire" (some 2)).1).all seoInvariant = false) := by
  refine ⟨⟨?_, ?_⟩, ⟨?_, ?_⟩⟩ <;> rfl

/-- Witness for C1 as amended at a concrete store. -/
theorem seo_ops_preserve_invariant_witness :
    seoInvariant ⟨1, some "T", "x", none, some "T", "", "", some 5, none, "service", true⟩
      = true := by
  have h := (seo_ops_preserve_invariant
    [⟨1, some "T0", "x", none, none, "", "", none, none, "independent", false⟩]
    9 (some "T") none "x" "service" 5
    (by decide) (by decide)).1
  exact h _ (by decide)

/-- C7 as amended.  The gateway derives the asset identifier as the last
slash-separated segment of the reference truncated at its first dot; it
fails closed (logs and skips, no deletion attempt) exactly when the
reference is falsy or not a string or the derived identifier is empty,
and otherwise attempts the deletion with the derived identifier no matter
where the reference came from. -/
theorem gateway_last_segment_attempt :
    (∀ (pre seg : List Char), (∀ c ∈ seg, ¬(c = '/')) →
        extractPublicId (.vStr (String.mk (pre ++ '/' :: seg)))
          = some (String.mk (seg.takeWhile (fun c => !(c == '.')))))
    ∧ (∀ (seg : List Char), seg ≠ [] → (∀ c ∈ seg, ¬(c = '/')) →
        extractPublicId (.vStr (String.mk seg))
          = some (String.mk (seg.takeWhile (fun c => !(c == '.')))))
    ∧ (∀ (destroy : String → DestroyOutcome) (url : JSValue),
        deleteImage destroy url =
          .ok ((extractPublicId url).bind (fun pid => if pid == "" then none else some pid))) :=
  ⟨extractPublicId_last_segment.1, extractPublicId_last_segment.2, deleteImage_attempt_formula⟩

/-- Witness for C7 as amended at concrete references. -/
theorem gateway_last_segment_attempt_witness :
    extractPublicId (.vStr "https://x.org/a/photo.min.png") = some "photo"
    ∧ deleteImage (fun _ => .ok) (.vStr "x/") = .ok none := by
  constructor
  · have h := gateway_last_segment_attempt.1 ("https://x.org/a".data)
      ("photo.min.png".data) (by decide)
    exact h.trans (by rfl)
  · have h := gateway_last_segment_attempt.2.2 (fun _ => .ok) (.vStr "x/")
    exact h.trans (by rfl)

/-- Records are found by slug in the store saveRecord leaves behind: if
the first slug match in the store was the record with the saved record's
id, and ids identify records, then the first slug match afterwards is the
saved record itself. -/
theorem find?_slug_saveRecord (store : List SeoRecord) (r e₂ : SeoRecord) (slug : String)
    (h1 : store.find? (fun x => x.slug == slug) = some r)
    (hid : ∀ x ∈ store, x._id = r._id → x = r)
    (hslug : e₂.slug = slug) (hide : e₂._id = r._id) :
    (saveRecord e₂ store).find? (fun x => x.slug == slug) = some e₂ := by
  induction store with
  | nil => simp at h1
  | cons y rest ih =>
    by_cases hy : (y.slug == slug) = true
    · rw [@List.find?_cons_of_pos _ (fun x => x.slug == slug) y rest hy] at h1
      have hyr : y = r := by simpa using h1
      have hidy : (y._id == e₂._id) = true := by
        rw [hyr, hide]
        simp
      rw [saveRecord, List.map_cons, if_pos hidy]
      exact @List.find?_cons_of_pos _ (fun x => x.slug == slug) e₂ _ (by simpa using hslug)
    · rw [@List.find?_cons_of_neg _ (fun x => x.slug == slug) y rest hy] at h1
      have hyne : y ≠ r := by
        intro hcon
        apply hy
        have hrs : r.slug = slug := by
          have := List.find?_some h1
          simpa using this
        rw [hcon]
        simpa using hrs
      have hidy : (y._id == e₂._id) = false := by
        rw [hide]
        simp only [beq_eq_false_iff_ne]
        intro hcon
        exact hyne (hid y (by simp) hcon)
      rw [saveRecord, List.map_cons, if_neg (by simp [hidy])]
      rw [@List.find?_cons_of_neg _ (fun x => x.slug == slug) y _ hy]
      exact ih h1 (fun x hx hxe => hid x (by simp [hx]) hxe)

/-- C8.  An independent metadata record claimed by a service: syncSeoData
on its slug with type service and a non-null id transitions it in place
to auto-managed with that linkedService, and a subsequent safe-delete on
the slug is blocked, returning false and leaving the store unchanged. -/
theorem sync_claims_independent (store : List SeoRecord) (freshId : Nat)
    (sub ti : Option String) (slug : String) (i : Nat) (r : SeoRecord)
    (h1 : store.find? (fun x => x.slug == slug) = some r)
    (h2 : r.isAutoManaged = false)
    (h3 : r.linkedType = "independent")
    (h4 : ∀ x ∈ store, x.linkedService ≠ some i)
    (h5 : ∀ x ∈ store, x._id = r._id → x = r) :
    ∃ r', (syncSeoData store freshId sub slug ti "service" (some i)).2 = .ok r'
      ∧ r'.isAutoManaged = true ∧ r'.linkedService = some i
      ∧ r'.linkedType = "service" ∧ r'.slug = slug ∧ r'._id = r._id
      ∧ (syncSeoData store freshId sub slug ti "service" (some i)).1 = saveRecord r' store
      ∧ safeDeleteSeoData (syncSeoData store freshId sub slug ti "service" (some i)).1 slug
          = ((syncSeoData store freshId sub slug ti "service" (some i)).1, false) := by
  have hmap : linkFieldMap "service" = .field "linkedService" := rfl
  have hfind1 : store.find? (fun x => getField "linkedService" x == some i) = none := by
    rw [List.find?_eq_none]
    intro x hx
    simp [getField]
    exact h4 x hx
  have hguard : (!r.isAutoManaged && r.linkedType == "independent") = true := by
    simp [h2, h3]
  have hsync : syncSeoData store freshId sub slug ti "service" (some i)
      = (saveRecord (setField "linkedService" (some i)
          { r with
            title := if truthyStr sub then sub else ti
            slug := slug
            seo_title := if truthyStr sub then sub else ti
            linkedType := "service"
            isAutoManaged := true }) store,
        .ok (setField "linkedService" (some i)
          { r with
            title := if truthyStr sub then sub else ti
            slug := slug
            seo_title := if truthyStr sub then sub else ti
            linkedType := "service"
            isAutoManaged := true })) := by
    unfold syncSeoData
    rw [hmap]
    simp only []
    rw [hfind1]
    simp only []
    rw [h1]
    simp only []
    rw [if_pos hguard]
  refine ⟨_, by rw [hsync], by simp [setField], by simp [setField], by simp [setField],
    by simp [setField], by simp [setField], by rw [hsync], ?_⟩
  have hfind2 : ((syncSeoData store freshId sub slug ti "service" (some i)).1).find?
      (fun x => x.slug == slug) = some (setField "linkedService" (some i)
        { r with
          title := if truthyStr sub then sub else ti
          slug := slug
          seo_title := if truthyStr sub then sub else ti
          linkedType := "service"
          isAutoManaged := true }) := by
    rw [hsync]
    exact find?_slug_saveRecord store r _ slug h1 h5 (by simp [setField]) (by simp [setField])
  rw [safeDeleteSeoData, hfind2]
  simp only []
  rw [if_neg (by simp [setField])]

/-- Witness for C8 at the specification's own scenario. -/
theorem sync_claims_independent_witness :
    (safeDeleteSeoData
      (syncSeoData
        [⟨1, some "React", "react-dev", none, none, "", "", none, none, "independent", false⟩]
        2 (some "React Dev") "react-dev" none "service" (some 7)).1 "react-dev").2 = false := by
  obtain ⟨r', hok, hauto, hlink, hty, hslug, hids, hstore, hsafe⟩ :=
    sync_claims_independent
      [⟨1, some "React", "react-dev", none, none, "", "", none, none, "independent", false⟩]
      2 (some "React Dev") none "react-dev" 7
      ⟨1, some "React", "react-dev", none, none, "", "", none, none, "independent", false⟩
      (by decide) (by decide) (by decide) (by decide) (by decide)
  rw [hsafe]

end ItsBackend
